import Mathlib

/-!
Shallow embedding of the cpp-ray-tracer rendering core: the vector/color
value type, rays, intervals, the material scattering protocol, sphere
intersection, the recursive integrator, the per-pixel sampling loop, the
scanline partition of the parallel renderer, and the tone-map/gamma/quantize
output encoding. Real-typed code is embedded over `ℝ`; the branching of the
source is mirrored with classical conditionals.
-/

namespace RayTracer

open Classical

/-- Vector3 value type from Vec3.h: a 3-component triple of reals, used as
position, direction and RGB color interchangeably. -/
structure Vec3 where
  x : ℝ
  y : ℝ
  z : ℝ

/-- Componentwise addition, from `operator+(Vec3, Vec3)`. -/
noncomputable instance : Add Vec3 := ⟨fun u v => ⟨u.x + v.x, u.y + v.y, u.z + v.z⟩⟩

/-- Componentwise subtraction, from `operator-(Vec3, Vec3)`. -/
noncomputable instance : Sub Vec3 := ⟨fun u v => ⟨u.x - v.x, u.y - v.y, u.z - v.z⟩⟩

/-- Componentwise negation, from `Vec3::operator-()`. -/
noncomputable instance : Neg Vec3 := ⟨fun v => ⟨-v.x, -v.y, -v.z⟩⟩

/-- Componentwise product, from `operator*(Vec3, Vec3)`. -/
noncomputable instance : Mul Vec3 := ⟨fun u v => ⟨u.x * v.x, u.y * v.y, u.z * v.z⟩⟩

/-- Scalar multiple, from `operator*(double, Vec3)`. -/
noncomputable instance : SMul ℝ Vec3 := ⟨fun t v => ⟨t * v.x, t * v.y, t * v.z⟩⟩

/-- Division of a vector by a scalar, from `operator/(Vec3, double)`:
`(1/t) * v`. -/
noncomputable instance : HDiv Vec3 ℝ Vec3 := ⟨fun v t => ((1 : ℝ) / t) • v⟩

/-- Scalar multiple with the scalar on the right, from
`operator*(Vec3, double)`: `t * v`. -/
noncomputable instance : HMul Vec3 ℝ Vec3 := ⟨fun v t => t • v⟩

/-- The default-constructed `Vec3()`: all components zero. -/
def vzero : Vec3 := ⟨0, 0, 0⟩

/-- Dot product from Vec3.h. -/
noncomputable def dot (u v : Vec3) : ℝ := u.x * v.x + u.y * v.y + u.z * v.z

/-- Squared length from `Vec3::length_squared`. -/
noncomputable def Vec3.lengthSquared (v : Vec3) : ℝ := v.x * v.x + v.y * v.y + v.z * v.z

/-- Length from `Vec3::length`: the square root of the squared length. -/
noncomputable def Vec3.length (v : Vec3) : ℝ := Real.sqrt v.lengthSquared

/-- Unit-vector helper from Vec3.h `normalize`: `v / v.length()`. -/
noncomputable def normalize (v : Vec3) : Vec3 := v / v.length

/-- Near-zero test from `Vec3::near_zero`: every component below `1e-8` in
absolute value. -/
def Vec3.nearZero (v : Vec3) : Prop :=
  |v.x| < 1e-8 ∧ |v.y| < 1e-8 ∧ |v.z| < 1e-8

/-- Mirror reflection from Vec3.h `reflect`: `v - 2*dot(v,n)*n`. -/
noncomputable def reflect (v n : Vec3) : Vec3 := v - (2 * dot v n) • n

/-- Linear interpolation from Vec3.h `lerp`: `(1-t)*a + t*b`. -/
noncomputable def lerp (a b : Vec3) (t : ℝ) : Vec3 := (1 - t) • a + t • b

/-- Snell refraction from Vec3.h `refract`. -/
noncomputable def refract (uv n : Vec3) (etaiOverEtat : ℝ) : Vec3 :=
  let cosTheta := min (dot (-uv) n) 1
  let rOutPerp := etaiOverEtat • (uv + cosTheta • n)
  let rOutParallel := (-(Real.sqrt |1 - rOutPerp.lengthSquared|)) • n
  rOutPerp + rOutParallel

/-- Modelled from the spec: the Ray type of the missing Ray.h —
`{origin: Vector3, direction: Vector3}`. -/
structure Ray where
  origin : Vec3
  direction : Vec3

/-- Modelled from the spec: position-at-parameter evaluation of a ray,
`P(t) = origin + t·direction`. -/
noncomputable def Ray.at (r : Ray) (t : ℝ) : Vec3 := r.origin + t • r.direction

/-- Modelled from the spec: a default-constructed ray (zero origin and
direction), the value of an uninitialized `Ray scattered;` declaration. -/
def defaultRay : Ray := ⟨vzero, vzero⟩

/-- Interval of accepted ray parameters, from Interval.h. -/
structure Interval where
  min : ℝ
  max : ℝ

/-- Inclusive membership from `Interval::contains`. -/
def Interval.ctns (i : Interval) (x : ℝ) : Prop := i.min ≤ x ∧ x ≤ i.max

/-- Strict membership from `Interval::surrounds`: `min < x && x < max`. -/
def Interval.surrounds (i : Interval) (x : ℝ) : Prop := i.min < x ∧ x < i.max

/-- Clamp from `Interval::clamp`: values below `min` go to `min`, values above
`max` go to `max`, all others pass through. -/
noncomputable def Interval.clamp (i : Interval) (x : ℝ) : ℝ :=
  if x < i.min then i.min else if x > i.max then i.max else x

/-- Material variants from Material.h: Lambertian, Metal, Dielectric and
Emission, each with the constructor parameters of its class. -/
inductive Material where
  | lambertian (albedo : Vec3)
  | metal (albedo : Vec3) (fuzz : ℝ)
  | dielectric (refractiveIndex : ℝ)
  | emission (emitColor : Vec3) (intensity : ℝ)

/-- Hit record from Object.h: hit point, oriented normal, ray parameter,
front-face flag and the surface's material. -/
structure HitRecord where
  hitPoint : Vec3
  normal : Vec3
  t : ℝ
  front_face : Bool
  mat : Material

/-- Result bundle of `Material::fall`: the five out-parameters
`out_albedo, attenuation, scattered, scatter, emit`. -/
structure FallResult where
  albedo : Vec3
  attenuation : Vec3
  scattered : Ray
  scatter : Bool
  emit : Bool

/-- One random draw consumed by a material interaction: the value of
`random_unit_vector()` and of `random_double()` for that call. -/
structure Rand where
  unitVec : Vec3
  uniform : ℝ

/-- Schlick reflectance from `Dielectric::reflectance`. -/
noncomputable def reflectance (cosine refractionIndex : ℝ) : ℝ :=
  let r0 := (1 - refractionIndex) / (1 + refractionIndex)
  let r0sq := r0 * r0
  r0sq + (1 - r0sq) * (1 - cosine) ^ (5 : ℕ)

/-- Material scattering protocol: the `fall` override of each material class
in Material.h, with the incoming value of the `scattered` out-parameter made
explicit and the random draws supplied as an argument. -/
noncomputable def Material.fall (m : Material) (rIn : Ray) (rec : HitRecord)
    (scattered0 : Ray) (rand : Rand) : FallResult :=
  match m with
  | .lambertian albedo =>
      let scatterDirection := rec.normal + rand.unitVec
      let scatterDirection :=
        if scatterDirection.nearZero then rec.normal else scatterDirection
      { albedo := albedo, attenuation := albedo,
        scattered := ⟨rec.hitPoint, scatterDirection⟩,
        scatter := true, emit := false }
  | .metal albedo fuzz =>
      let reflected := reflect rIn.direction rec.normal
      let reflected := normalize reflected + fuzz • rand.unitVec
      { albedo := albedo, attenuation := albedo,
        scattered := ⟨rec.hitPoint, reflected⟩,
        scatter := if 0 < dot reflected rec.normal then true else false,
        emit := false }
  | .dielectric refractiveIndex =>
      let ri := if rec.front_face then 1 / refractiveIndex else refractiveIndex
      let unitDirection := normalize rIn.direction
      let cosTheta := min (dot (-unitDirection) rec.normal) 1
      let sinTheta := Real.sqrt (1 - cosTheta * cosTheta)
      let cannotRefract := ri * sinTheta > 1
      let direction :=
        if cannotRefract ∨ reflectance cosTheta ri > rand.uniform
        then reflect unitDirection rec.normal
        else refract unitDirection rec.normal ri
      { albedo := ⟨1, 1, 1⟩, attenuation := ⟨1, 1, 1⟩,
        scattered := ⟨rec.hitPoint, direction⟩,
        scatter := true, emit := false }
  | .emission emitColor intensity =>
      { albedo := emitColor, attenuation := intensity • emitColor,
        scattered := scattered0,
        scatter := false, emit := true }

/-- Sphere surface from Object.h: center, radius and material. -/
structure Sphere where
  center : Vec3
  radius : ℝ
  mat : Material

/-- Discriminant of the sphere/ray quadratic as computed in `Sphere::RayHit`:
with `a = |d|²`, `h = d·(center-origin)`, `c = |oc|² - r²`, the value
`h*h - a*c`. -/
noncomputable def Sphere.disc (s : Sphere) (r : Ray) : ℝ :=
  let oc := s.center - r.origin
  let a := r.direction.lengthSquared
  let h := dot r.direction oc
  let c := dot oc oc - s.radius * s.radius
  h * h - a * c

/-- Near root `(h - √discriminant) / a` evaluated first by `Sphere::RayHit`. -/
noncomputable def Sphere.rootNear (s : Sphere) (r : Ray) : ℝ :=
  let oc := s.center - r.origin
  let a := r.direction.lengthSquared
  let h := dot r.direction oc
  (h - Real.sqrt (s.disc r)) / a

/-- Far root `(h + √discriminant) / a` evaluated second by `Sphere::RayHit`. -/
noncomputable def Sphere.rootFar (s : Sphere) (r : Ray) : ℝ :=
  let oc := s.center - r.origin
  let a := r.direction.lengthSquared
  let h := dot r.direction oc
  (h + Real.sqrt (s.disc r)) / a

/-- Hit-record construction of `Sphere::RayHit` after a root is accepted:
hit point, outward normal `(P(t)-center)/radius`, orientation flip when the
ray direction and the outward normal have positive dot product, and the
sphere's material. -/
noncomputable def Sphere.acceptHit (s : Sphere) (r : Ray) (root : ℝ) :
    HitRecord :=
  if 0 < dot r.direction ((r.at root - s.center) / s.radius) then
    { hitPoint := r.at root, normal := -((r.at root - s.center) / s.radius),
      t := root, front_face := false, mat := s.mat }
  else
    { hitPoint := r.at root, normal := (r.at root - s.center) / s.radius,
      t := root, front_face := true, mat := s.mat }

/-- Core of `Sphere::RayHit`: `none` on the early-return miss paths
(negative discriminant, or neither root strictly inside the interval),
otherwise the fully populated hit record for the accepted root. -/
noncomputable def Sphere.rayHitCore (s : Sphere) (r : Ray) (rayT : Interval) :
    Option HitRecord :=
  if s.disc r < 0 then none
  else if rayT.surrounds (s.rootNear r) then some (s.acceptHit r (s.rootNear r))
  else if rayT.surrounds (s.rootFar r) then some (s.acceptHit r (s.rootFar r))
  else none

/-- In-out form of `Sphere::RayHit`: the boolean return value paired with the
final contents of the `hit` reference parameter, which the source assigns
only on the accepting path. -/
noncomputable def Sphere.rayHit (s : Sphere) (r : Ray) (hit : HitRecord)
    (rayT : Interval) : Bool × HitRecord :=
  match s.rayHitCore r rayT with
  | some rec => (true, rec)
  | none => (false, hit)

/-- Nearest-hit loop of `Scene::getRayHit` (Scene.h lines 286-297): fold over
the object list, keeping the last accepted hit while shrinking the accepted
interval's upper bound to `closest_so_far` (the accepted hit's `t`, or the
clip interval's `max` while nothing has hit). -/
noncomputable def nearestHitStep (r : Ray) (clip : Interval)
    (acc : Option HitRecord) (obj : Sphere) : Option HitRecord :=
  let closest := match acc with
    | none => clip.max
    | some rec => rec.t
  match obj.rayHitCore r ⟨clip.min, closest⟩ with
  | some tempRec => some tempRec
  | none => acc

/-- Full nearest-hit query of `Scene::getRayHit`: the loop body applied over
the scene's object list, starting from no hit. -/
noncomputable def sceneNearestHit (objs : List Sphere) (r : Ray)
    (clip : Interval) : Option HitRecord :=
  objs.foldl (nearestHitStep r clip) none

/-- Per-pixel result bundle from Scene.h `PixelInfo`: color, albedo, normal
and depth. -/
structure PixelInfo where
  color : Vec3
  albedo : Vec3
  normal : Vec3
  depth : ℝ

/-- Freshly declared `PixelInfo pixel;`: the `Color`/`Vec3` members are
zeroed by the `Vec3` default constructor, while `depth` is an uninitialized
double, kept abstract as the parameter `junk`. -/
def freshPixel (junk : ℝ) : PixelInfo := ⟨vzero, vzero, vzero, junk⟩

/-- Recursive integrator `Scene::getRayHit` (Scene.h lines 280-335): the
final contents of the by-reference `pixel` argument. Bounce-budget
exhaustion assigns only the color; on a hit the material's `fall` runs with
the random draw for that depth; on a miss the background gradient is
produced. The call at Scene.h line 307 passes the caller's local
`attenuation` into `fall`'s `out_albedo` parameter and the caller's local
`albedo` into `fall`'s `attenuation` parameter, so after the call the
caller's `attenuation` holds the material's albedo output (`res.albedo`)
and the caller's `albedo` holds the material's attenuation output
(`res.attenuation`): the emission term and the scatter factor are therefore
`res.albedo`, while the albedo AOV receives `res.attenuation`. -/
noncomputable def getRayHit (objs : List Sphere) (rng : ℤ → Rand)
    (exposure : ℝ) (clip : Interval) (junk : ℝ) (r : Ray) (bounceDepth : ℤ)
    (pixel : PixelInfo) : PixelInfo :=
  if bounceDepth ≤ 0 then
    { pixel with color := vzero }
  else
    match sceneNearestHit objs r clip with
    | some rec =>
        let res := rec.mat.fall r rec defaultRay (rng bounceDepth)
        let emitted := if res.emit then res.albedo else vzero
        let pixel1 := { pixel with albedo := res.attenuation,
                                   normal := rec.normal, depth := rec.t }
        if res.scatter then
          let pixel2 := getRayHit objs rng exposure clip junk res.scattered
            (bounceDepth - 1) (freshPixel junk)
          { pixel1 with color := emitted + res.albedo * pixel2.color }
        else
          { pixel1 with color := emitted }
    | none =>
        let unitDirection := normalize r.direction
        let t := (unitDirection.y + 1) / 2
        { color := lerp ((⟨1, 1, 1⟩ : Vec3) * exposure)
            ((⟨0.5, 0.7, 1⟩ : Vec3) * exposure) t,
          albedo := vzero, normal := vzero, depth := clip.max }
  termination_by bounceDepth.toNat
  decreasing_by
    simp only [not_le] at *
    omega

/-- Loop body of `Scene::samplePixel` (Scene.h lines 358-377): trace one
jittered camera ray with the full bounce budget into a fresh `PixelInfo`
and add its color, albedo, normal and depth onto the running sums (whose
color/albedo/normal start at the zero vector and whose depth is explicitly
initialized to `0.0`). -/
noncomputable def sampleAccum (objs : List Sphere) (rngs : ℕ → ℤ → Rand)
    (exposure : ℝ) (clip : Interval) (maxBounces : ℤ) (junk : ℝ)
    (rays : ℕ → Ray) (acc : PixelInfo) (sample : ℕ) : PixelInfo :=
  let pixel2 := getRayHit objs (rngs sample) exposure clip junk
    (rays sample) maxBounces (freshPixel junk)
  ⟨acc.color + pixel2.color, acc.albedo + pixel2.albedo,
   acc.normal + pixel2.normal, acc.depth + pixel2.depth⟩

/-- Full sampling loop `Scene::samplePixel`: fold the per-sample
accumulation over the sample indices, then scale every component by
`pixel_samples_scale = 1/samples_per_pixel`. -/
noncomputable def samplePixel (objs : List Sphere) (rngs : ℕ → ℤ → Rand)
    (exposure : ℝ) (clip : Interval) (spp : ℕ) (maxBounces : ℤ) (junk : ℝ)
    (rays : ℕ → Ray) : PixelInfo :=
  let pixel1 := (List.range spp).foldl
    (sampleAccum objs rngs exposure clip maxBounces junk rays)
    (⟨vzero, vzero, vzero, 0⟩ : PixelInfo)
  let scale : ℝ := 1 / spp
  ⟨scale • pixel1.color, scale • pixel1.albedo, scale • pixel1.normal,
   scale * pixel1.depth⟩

/-- Tone map applied per channel in the color overload of `Scene::Write`
(Scene.h line 250): `x / (1 + x)`. -/
noncomputable def tone (x : ℝ) : ℝ := x / (1 + x)

/-- Gamma correction from Utils.h `linear_to_gamma`: square root of positive
inputs, `0` otherwise. -/
noncomputable def linearToGamma (linearComponent : ℝ) : ℝ :=
  if linearComponent > 0 then Real.sqrt linearComponent else 0

/-- Clamping range `col_range(0.0, 0.999)` used before quantization in
`Scene::Write`. -/
def colRange : Interval := ⟨0, 0.999⟩

/-- Per-channel byte encoding of the color overload of `Scene::Write`
(Scene.h lines 250-264): tone map, gamma-correct, clamp to `[0, 0.999]`,
multiply by 256 and truncate to an integer (the value is non-negative, so
the `unsigned char` cast truncates like the floor). -/
noncomputable def encodeChannel (x : ℝ) : ℤ :=
  ⌊256 * colRange.clamp (linearToGamma (tone x))⌋

/-- Rows per worker in `Scene::Render` (Scene.h line 127): integer division
of the canvas height by the thread count. -/
def rowsPerThread (height threadCount : ℕ) : ℕ := height / threadCount

/-- Start row of worker `t` in `Scene::Render` (Scene.h line 161):
`t * rows_per_thread`. -/
def startRow (height threadCount t : ℕ) : ℕ :=
  t * rowsPerThread height threadCount

/-- End row (exclusive) of worker `t` in `Scene::Render` (Scene.h line 162):
the canvas height for the last worker, `start_row + rows_per_thread`
otherwise. -/
def endRow (height threadCount t : ℕ) : ℕ :=
  if t = threadCount - 1 then height
  else startRow height threadCount t + rowsPerThread height threadCount

/-- Pixel indices written by worker `t`: the render loop writes
`index = j * canvas_width + i` for every assigned row `j` and every column
`i`, which is exactly the contiguous range from `start_row * width` up to
(excluding) `end_row * width`. -/
def workerWrites (width height threadCount t idx : ℕ) : Prop :=
  startRow height threadCount t * width ≤ idx ∧
    idx < endRow height threadCount t * width

instance (width height threadCount t idx : ℕ) :
    Decidable (workerWrites width height threadCount t idx) :=
  inferInstanceAs (Decidable (_ ∧ _))

/-- Test sphere of radius 1 centered three units in front of the origin,
carrying an Emissive material of color `(1,1,1)` and intensity `5`. -/
noncomputable def sphereE : Sphere := ⟨⟨0, 0, -3⟩, 1, .emission ⟨1, 1, 1⟩ 5⟩

/-- Test sphere of radius 1 centered three units in front of the origin,
carrying a Lambertian material with albedo `(0,0,0)`. -/
noncomputable def sphereL : Sphere := ⟨⟨0, 0, -3⟩, 1, .lambertian vzero⟩

/-- Test camera ray from the origin straight toward the test spheres. -/
noncomputable def rayHit0 : Ray := ⟨vzero, ⟨0, 0, -1⟩⟩

/-- Test camera ray from the origin straight up, missing the test spheres. -/
noncomputable def rayMiss0 : Ray := ⟨vzero, ⟨0, 1, 0⟩⟩

/-- Test clip interval `(0.001, 1000)`. -/
noncomputable def clip0 : Interval := ⟨1 / 1000, 1000⟩

/-- Fixed random draw used in concrete evaluations. -/
def rand0 : Rand := ⟨vzero, 0⟩

/-- Hit record produced when `rayHit0` strikes the test sphere carrying
material `m`: near root `t = 2`, hit point `(0,0,-2)`, outward unit normal
`(0,0,1)`, front face. -/
noncomputable def recHit0 (m : Material) : HitRecord :=
  ⟨⟨0, 0, -2⟩, ⟨0, 0, 1⟩, 2, true, m⟩

/-- Test pixel record whose depth field holds `7`. -/
noncomputable def pix7 : PixelInfo := ⟨vzero, vzero, vzero, 7⟩

/-! ### Componentwise lemmas for the vector algebra -/

theorem Vec3.add_def (u v : Vec3) :
    u + v = ⟨u.x + v.x, u.y + v.y, u.z + v.z⟩ := rfl

theorem Vec3.sub_def (u v : Vec3) :
    u - v = ⟨u.x - v.x, u.y - v.y, u.z - v.z⟩ := rfl

theorem Vec3.neg_def (v : Vec3) : -v = ⟨-v.x, -v.y, -v.z⟩ := rfl

theorem Vec3.mul_def (u v : Vec3) :
    u * v = ⟨u.x * v.x, u.y * v.y, u.z * v.z⟩ := rfl

theorem Vec3.smul_def (t : ℝ) (v : Vec3) :
    t • v = ⟨t * v.x, t * v.y, t * v.z⟩ := rfl

theorem Vec3.hmul_def (v : Vec3) (t : ℝ) : v * t = t • v := rfl

theorem Vec3.div_def (v : Vec3) (t : ℝ) : v / t = ((1 : ℝ) / t) • v := rfl

theorem vzero_add (v : Vec3) : vzero + v = v := by
  cases v
  simp [vzero, Vec3.add_def]

theorem add_vzero (v : Vec3) : v + vzero = v := by
  cases v
  simp [vzero, Vec3.add_def]

theorem vzero_mul (v : Vec3) : vzero * v = vzero := by
  simp [vzero, Vec3.mul_def]

theorem smul_vzero (t : ℝ) : t • vzero = vzero := by
  simp [vzero, Vec3.smul_def]

theorem one_smul_vec (v : Vec3) : (1 : ℝ) • v = v := by
  cases v
  simp [Vec3.smul_def]

/-! ### Claim C9 -/

/-- C9: whenever `Sphere::RayHit` returns false (negative discriminant, or
neither quadratic root strictly inside the interval), the by-reference hit
record is left completely unchanged in all of its fields. -/
theorem sphere_rayHit_miss_leaves_record (s : Sphere) (r : Ray)
    (hit : HitRecord) (i : Interval) (h : (s.rayHit r hit i).1 = false) :
    (s.rayHit r hit i).2 = hit := by
  unfold Sphere.rayHit at h ⊢
  cases hcore : s.rayHitCore r i with
  | none => simp [hcore]
  | some rec => simp [hcore] at h

/-- Witness for C9: the test sphere missed by the upward ray returns false
and hands back the input record untouched. -/
theorem sphere_rayHit_miss_leaves_record_witness :
    (sphereL.rayHit rayMiss0 (recHit0 (.lambertian vzero)) clip0).1 = false ∧
    (sphereL.rayHit rayMiss0 (recHit0 (.lambertian vzero)) clip0).2 = (recHit0 (.lambertian vzero)) := by
  have hfalse : (sphereL.rayHit rayMiss0 (recHit0 (.lambertian vzero)) clip0).1 = false := by
    unfold Sphere.rayHit
    have hd : sphereL.disc rayMiss0 < 0 := by
      norm_num [Sphere.disc, sphereL, rayMiss0, vzero, dot, Vec3.sub_def,
        Vec3.lengthSquared]
    unfold Sphere.rayHitCore
    rw [if_pos hd]
  exact ⟨hfalse,
    sphere_rayHit_miss_leaves_record sphereL rayMiss0 (recHit0 (.lambertian vzero)) clip0 hfalse⟩

/-! ### Claim C2 -/

/-- Counterexample to C2 as stated: for the Emissive material of color
`(1,1,1)` and intensity `5`, the albedo output of `interact` is the raw
color `(1,1,1)`, not the color scaled by intensity. -/
theorem emission_albedo_not_scaled :
    ¬ ((Material.fall (.emission ⟨1, 1, 1⟩ 5) rayHit0 (recHit0 (.emission ⟨1, 1, 1⟩ 5))
          defaultRay rand0).albedo = (5 : ℝ) • (⟨1, 1, 1⟩ : Vec3)) := by
  simp only [Material.fall, Vec3.smul_def, Vec3.mk.injEq]
  norm_num

/-- C2 amended: for every incoming ray and hit record, `Emission::fall`
reports `didScatter = false` and `didEmit = true`, returns attenuation equal
to the material's color scaled componentwise by its intensity, and returns
the albedo output equal to the raw (unscaled) color. -/
theorem emission_fall_spec (c : Vec3) (i : ℝ) (rIn : Ray) (rec : HitRecord)
    (scattered0 : Ray) (rand : Rand) :
    (Material.fall (.emission c i) rIn rec scattered0 rand).scatter = false ∧
    (Material.fall (.emission c i) rIn rec scattered0 rand).emit = true ∧
    (Material.fall (.emission c i) rIn rec scattered0 rand).attenuation = i • c ∧
    (Material.fall (.emission c i) rIn rec scattered0 rand).albedo = c := by
  simp [Material.fall]

/-! ### Claim C3 -/

/-- Counterexample to C3 as stated: tracing with bounce budget `0` does not
zero the auxiliary values — a pixel record whose depth field holds `7` keeps
depth `7`, because the exhaustion branch assigns only the color. -/
theorem trace_exhausted_depth_not_zeroed :
    ¬ ((getRayHit [] (fun _ => rand0) 1 clip0 0 rayHit0 0 pix7).depth = 0) := by
  rw [getRayHit]
  norm_num [pix7]

/-- C3 amended: for every scene, ray and pixel record, the integrator called
with remaining bounce budget `0` or less returns black color `(0,0,0)` and
leaves the auxiliary values (albedo, normal, depth) exactly as the supplied
record already held them; callers that pass a default-constructed record
therefore observe zero albedo and normal, while depth keeps its previous
(in C++ uninitialized) contents. -/
theorem trace_exhausted_returns_black (objs : List Sphere) (rng : ℤ → Rand)
    (exposure : ℝ) (clip : Interval) (junk : ℝ) (r : Ray) (d : ℤ)
    (pixel : PixelInfo) (hd : d ≤ 0) :
    getRayHit objs rng exposure clip junk r d pixel =
      { pixel with color := vzero } := by
  rw [getRayHit]
  rw [if_pos hd]

/-- Witness for the amended C3: a concrete call with bounce budget `0`
returns the record with black color and every other field untouched. -/
theorem trace_exhausted_returns_black_witness :
    getRayHit [] (fun _ => rand0) 1 clip0 0 rayHit0 0 pix7 =
      { pix7 with color := vzero } :=
  trace_exhausted_returns_black [] (fun _ => rand0) 1 clip0 0 rayHit0 0 pix7
    le_rfl

/-! ### Claims C4 and C5 -/

/-- Accepted hit records carry the accepted root as their `t` field. -/
theorem acceptHit_t (s : Sphere) (r : Ray) (root : ℝ) :
    (s.acceptHit r root).t = root := by
  unfold Sphere.acceptHit
  split <;> rfl

/-- C4: the sphere intersection computes `discriminant = h² − a·c` and
reports a miss when it is negative; otherwise it evaluates the near root
`(h − √discriminant)/a` first and the far root second, accepts the first
of the two that lies strictly inside the open interval (`surrounds`, both
endpoints excluded), and reports a miss if neither root qualifies. -/
theorem sphere_rayHit_root_selection (s : Sphere) (r : Ray) (i : Interval) :
    (s.disc r < 0 → s.rayHitCore r i = none) ∧
    (0 ≤ s.disc r → i.surrounds (s.rootNear r) →
      ∃ rec, s.rayHitCore r i = some rec ∧ rec.t = s.rootNear r) ∧
    (0 ≤ s.disc r → ¬ i.surrounds (s.rootNear r) → i.surrounds (s.rootFar r) →
      ∃ rec, s.rayHitCore r i = some rec ∧ rec.t = s.rootFar r) ∧
    (0 ≤ s.disc r → ¬ i.surrounds (s.rootNear r) →
      ¬ i.surrounds (s.rootFar r) → s.rayHitCore r i = none) := by
  unfold Sphere.rayHitCore
  refine ⟨fun hneg => ?_, fun hpos hnear => ?_, fun hpos hnear hfar => ?_,
    fun hpos hnear hfar => ?_⟩
  · rw [if_pos hneg]
  · rw [if_neg (not_lt.mpr hpos), if_pos hnear]
    exact ⟨_, rfl, acceptHit_t s r _⟩
  · rw [if_neg (not_lt.mpr hpos), if_neg hnear, if_pos hfar]
    exact ⟨_, rfl, acceptHit_t s r _⟩
  · rw [if_neg (not_lt.mpr hpos), if_neg hnear, if_neg hfar]

/-- Discriminant of the head-on test configuration evaluates to `1`. -/
theorem sphereL_disc_eval : sphereL.disc rayHit0 = 1 := by
  norm_num [Sphere.disc, sphereL, rayHit0, vzero, dot, Vec3.sub_def,
    Vec3.lengthSquared]

/-- Near root of the head-on test configuration evaluates to `2`. -/
theorem sphereL_rootNear_eval : sphereL.rootNear rayHit0 = 2 := by
  unfold Sphere.rootNear
  rw [sphereL_disc_eval]
  norm_num [sphereL, rayHit0, vzero, dot, Vec3.sub_def, Vec3.lengthSquared]

/-- Witness for C4: on the head-on test configuration the discriminant is
non-negative, the near root `2` lies strictly inside the clip interval, and
the intersection accepts it as the hit parameter. -/
theorem sphere_rayHit_root_selection_witness :
    0 ≤ sphereL.disc rayHit0 ∧ clip0.surrounds (sphereL.rootNear rayHit0) ∧
    ∃ rec, sphereL.rayHitCore rayHit0 clip0 = some rec ∧
      rec.t = sphereL.rootNear rayHit0 := by
  have hd : (0 : ℝ) ≤ sphereL.disc rayHit0 := by
    rw [sphereL_disc_eval]; norm_num
  have hs : clip0.surrounds (sphereL.rootNear rayHit0) := by
    rw [sphereL_rootNear_eval]
    constructor <;> norm_num [clip0]
  exact ⟨hd, hs, (sphere_rayHit_root_selection sphereL rayHit0 clip0).2.1 hd hs⟩

/-- C5: for every accepted sphere intersection, if the ray direction and the
outward normal `(P(t) − center)/radius` have positive dot product then the
returned record has `frontFace = false` and the negated outward normal;
otherwise `frontFace = true` and the outward normal itself. -/
theorem sphere_hit_orientation (s : Sphere) (r : Ray) (i : Interval)
    (rec : HitRecord) (h : s.rayHitCore r i = some rec) :
    (0 < dot r.direction ((r.at rec.t - s.center) / s.radius) →
      rec.front_face = false ∧
      rec.normal = -((r.at rec.t - s.center) / s.radius)) ∧
    (¬ 0 < dot r.direction ((r.at rec.t - s.center) / s.radius) →
      rec.front_face = true ∧
      rec.normal = (r.at rec.t - s.center) / s.radius) := by
  unfold Sphere.rayHitCore at h
  have hroot : ∃ root, rec = s.acceptHit r root := by
    split at h
    · exact absurd h (by simp)
    · split at h
      · exact ⟨_, (Option.some_injective _ h).symm⟩
      · split at h
        · exact ⟨_, (Option.some_injective _ h).symm⟩
        · exact absurd h (by simp)
  obtain ⟨root, hrec⟩ := hroot
  subst hrec
  rw [acceptHit_t]
  unfold Sphere.acceptHit
  split
  · rename_i hdotpos
    exact ⟨fun _ => ⟨rfl, rfl⟩, fun hnot => absurd hdotpos hnot⟩
  · rename_i hdotneg
    exact ⟨fun hpos => absurd hpos hdotneg, fun _ => ⟨rfl, rfl⟩⟩

/-! ### Claims C8 and C10: the output encoding -/

/-- Tone mapping `x / (1+x)` is monotone on the non-negative reals. -/
theorem tone_mono {a b : ℝ} (ha : 0 ≤ a) (hab : a ≤ b) : tone a ≤ tone b := by
  unfold tone
  have h1 : (0 : ℝ) < 1 + a := by linarith
  have h2 : (0 : ℝ) < 1 + b := by linarith
  rw [div_le_div_iff₀ h1 h2]
  nlinarith

/-- Gamma correction is monotone on all of `ℝ`. -/
theorem linearToGamma_mono {x y : ℝ} (h : x ≤ y) :
    linearToGamma x ≤ linearToGamma y := by
  unfold linearToGamma
  split_ifs with hx hy
  · exact Real.sqrt_le_sqrt h
  · exact absurd (hx.trans_le h) hy
  · exact Real.sqrt_nonneg y
  · exact le_refl 0

/-- Clamping into an interval with `min ≤ max` is monotone. -/
theorem clamp_mono (i : Interval) (hi : i.min ≤ i.max) {x y : ℝ} (h : x ≤ y) :
    i.clamp x ≤ i.clamp y := by
  unfold Interval.clamp
  split_ifs <;> linarith

/-- A clamped value lies inside the clamping interval when `min ≤ max`. -/
theorem clamp_mem (i : Interval) (hi : i.min ≤ i.max) (x : ℝ) :
    i.min ≤ i.clamp x ∧ i.clamp x ≤ i.max := by
  unfold Interval.clamp
  split_ifs <;> constructor <;> linarith

/-- C8: the per-channel color encoding of `Scene::Write` — tone map
`x → x/(1+x)`, gamma correction by square root, clamp to `[0, 0.999]` and
quantization by multiplying by 256 and truncating — is monotone: for all
channel values `0 ≤ a < b`, `encode(a) ≤ encode(b)`. -/
theorem encodeChannel_monotone (a b : ℝ) (ha : 0 ≤ a) (hab : a < b) :
    encodeChannel a ≤ encodeChannel b := by
  unfold encodeChannel
  apply Int.floor_mono
  have h1 : tone a ≤ tone b := tone_mono ha hab.le
  have h2 : linearToGamma (tone a) ≤ linearToGamma (tone b) :=
    linearToGamma_mono h1
  have h3 : colRange.clamp (linearToGamma (tone a)) ≤
      colRange.clamp (linearToGamma (tone b)) :=
    clamp_mono colRange (by norm_num [colRange]) h2
  linarith

/-- Witness for C8 at the concrete channel values `0 < 1`. -/
theorem encodeChannel_monotone_witness :
    (0 : ℝ) ≤ 0 ∧ (0 : ℝ) < 1 ∧ encodeChannel 0 ≤ encodeChannel 1 :=
  ⟨le_refl 0, one_pos, encodeChannel_monotone 0 1 (le_refl 0) one_pos⟩

/-- C10: for every channel value, including negative ones, the quantized
byte lies in `[0, 255]`: `linear_to_gamma` maps non-positive inputs to `0`,
and the clamp to `[0, 0.999]` before multiplying by 256 bounds the truncated
result by 255. -/
theorem encodeChannel_byte_in_range (x : ℝ) :
    (x ≤ 0 → linearToGamma x = 0) ∧
    0 ≤ encodeChannel x ∧ encodeChannel x ≤ 255 := by
  have hmem := clamp_mem colRange (by norm_num [colRange])
    (linearToGamma (tone x))
  have hlo : (0 : ℝ) ≤ colRange.clamp (linearToGamma (tone x)) := hmem.1
  have hhi : colRange.clamp (linearToGamma (tone x)) ≤ 0.999 := hmem.2
  refine ⟨fun hx => ?_, ?_, ?_⟩
  · unfold linearToGamma
    rw [if_neg (not_lt.mpr hx)]
  · unfold encodeChannel
    refine Int.le_floor.mpr ?_
    push_cast
    nlinarith
  · unfold encodeChannel
    have : (256 : ℝ) * colRange.clamp (linearToGamma (tone x)) < 256 := by
      nlinarith
    have hlt : ⌊(256 : ℝ) * colRange.clamp (linearToGamma (tone x))⌋ < 256 :=
      Int.floor_lt.mpr (by exact_mod_cast this)
    omega

/-- Witness for C10 at the concrete channel value `-1`. -/
theorem encodeChannel_byte_in_range_witness :
    linearToGamma (-1) = 0 ∧
    0 ≤ encodeChannel (-1) ∧ encodeChannel (-1) ≤ 255 :=
  ⟨(encodeChannel_byte_in_range (-1)).1 (by norm_num),
   (encodeChannel_byte_in_range (-1)).2.1,
   (encodeChannel_byte_in_range (-1)).2.2⟩

/-! ### Claim C6: the scanline partition -/

/-- Every worker's end row is at most the canvas height. -/
theorem endRow_le (height N t : ℕ) (ht : t < N) :
    endRow height N t ≤ height := by
  unfold endRow startRow rowsPerThread
  split_ifs with hlast
  · exact le_refl height
  · have h1 : t + 1 ≤ N := ht
    have h2 : (t + 1) * (height / N) ≤ N * (height / N) :=
      Nat.mul_le_mul_right _ h1
    have h3 : height / N * N ≤ height := Nat.div_mul_le_self height N
    have h4 : t * (height / N) + height / N = (t + 1) * (height / N) := by ring
    have h5 : N * (height / N) = height / N * N := Nat.mul_comm _ _
    omega

/-- Two distinct workers never write the same pixel index. -/
theorem workerWrites_disjoint (width height N ta tb idx : ℕ)
    (hab : ta < tb) (hb : tb < N)
    (hwa : workerWrites width height N ta idx)
    (hwb : workerWrites width height N tb idx) : False := by
  obtain ⟨_, hahi⟩ := hwa
  obtain ⟨hblo, _⟩ := hwb
  have hta : ta ≠ N - 1 := by omega
  have hend : endRow height N ta = (ta + 1) * rowsPerThread height N := by
    unfold endRow startRow
    rw [if_neg hta]
    ring
  have hsb : startRow height N tb = tb * rowsPerThread height N := rfl
  have hle : (ta + 1) * rowsPerThread height N ≤
      tb * rowsPerThread height N :=
    Nat.mul_le_mul_right _ hab
  have hlew : endRow height N ta * width ≤ startRow height N tb * width := by
    rw [hend, hsb]
    exact Nat.mul_le_mul_right _ hle
  omega

/-- C6: for every canvas height ≥ 1 and worker count N ≥ 1, the static
partition of scanlines into contiguous row ranges (worker `t` taking rows
`[t·(height/N), (t+1)·(height/N))`, the last worker's range extended to
`height`) covers the pixel index range `[0, width·height)` exactly: every
index below `width·height` is written by some worker, only such indices are
written, and no index is written by two distinct workers. -/
theorem scanline_partition_exact (width height N idx t1 t2 : ℕ)
    (hh : 1 ≤ height) (hN : 1 ≤ N) :
    (idx < width * height ↔ ∃ t, t < N ∧ workerWrites width height N t idx) ∧
    (t1 < N → t2 < N → workerWrites width height N t1 idx →
      workerWrites width height N t2 idx → t1 = t2) := by
  constructor
  · constructor
    · intro hidx
      have hw : 0 < width := by
        rcases Nat.eq_zero_or_pos width with h0 | h
        · rw [h0] at hidx
          simp at hidx
        · exact h
      have hjw : idx / width * width ≤ idx := Nat.div_mul_le_self idx width
      have hcomm : width * height = height * width := Nat.mul_comm _ _
      have hjh : idx / width < height :=
        (Nat.div_lt_iff_lt_mul hw).mpr (by omega)
      have hidxup : idx < (idx / width + 1) * width := by
        have h1 := Nat.div_add_mod idx width
        have h2 := Nat.mod_lt idx hw
        have h3 : (idx / width + 1) * width = width * (idx / width) + width := by
          ring
        omega
      by_cases hcase : idx / width < (N - 1) * rowsPerThread height N
      · -- an interior worker covers this row
        have hrpt : 0 < rowsPerThread height N := by
          rcases Nat.eq_zero_or_pos (rowsPerThread height N) with h0 | h
          · rw [h0] at hcase
            simp at hcase
          · exact h
        refine ⟨idx / width / rowsPerThread height N, ?_, ?_, ?_⟩
        · have := (Nat.div_lt_iff_lt_mul hrpt).mpr hcase
          omega
        · have l1 : idx / width / rowsPerThread height N *
              rowsPerThread height N ≤ idx / width :=
            Nat.div_mul_le_self _ _
          have l2 : startRow height N (idx / width / rowsPerThread height N) *
              width ≤ idx / width * width := Nat.mul_le_mul_right _ l1
          omega
        · have htlt : idx / width / rowsPerThread height N < N - 1 :=
            (Nat.div_lt_iff_lt_mul hrpt).mpr hcase
          have hne : idx / width / rowsPerThread height N ≠ N - 1 := by omega
          have hend : endRow height N (idx / width / rowsPerThread height N) =
              (idx / width / rowsPerThread height N + 1) *
                rowsPerThread height N := by
            unfold endRow startRow
            rw [if_neg hne]
            ring
          have hju : idx / width <
              (idx / width / rowsPerThread height N + 1) *
                rowsPerThread height N := by
            have h1 := Nat.div_add_mod (idx / width) (rowsPerThread height N)
            have h2 := Nat.mod_lt (idx / width) hrpt
            have h3 : (idx / width / rowsPerThread height N + 1) *
                rowsPerThread height N =
                rowsPerThread height N *
                  (idx / width / rowsPerThread height N) +
                  rowsPerThread height N := by ring
            omega
          have hju1 : idx / width + 1 ≤
              (idx / width / rowsPerThread height N + 1) *
                rowsPerThread height N := hju
          have := Nat.mul_le_mul_right width hju1
          have hfin : (idx / width + 1) * width ≤
              endRow height N (idx / width / rowsPerThread height N) * width := by
            rw [hend]
            exact this
          omega
      · -- the last worker covers this row
        refine ⟨N - 1, by omega, ?_, ?_⟩
        · have l1 : (N - 1) * rowsPerThread height N ≤ idx / width := by omega
          have l2 : startRow height N (N - 1) * width ≤ idx / width * width :=
            Nat.mul_le_mul_right _ l1
          omega
        · have hend : endRow height N (N - 1) = height := by
            unfold endRow
            rw [if_pos rfl]
          rw [hend]
          omega

    · rintro ⟨t, htN, hlo, hhi⟩
      have h1 : endRow height N t ≤ height := endRow_le height N t htN
      have h2 : endRow height N t * width ≤ height * width :=
        Nat.mul_le_mul_right _ h1
      have h3 : height * width = width * height := Nat.mul_comm _ _
      omega
  · intro h1N h2N hw1 hw2
    by_contra hne
    rcases Nat.lt_or_ge t1 t2 with hlt | hge
    · exact workerWrites_disjoint width height N t1 t2 idx hlt h2N hw1 hw2
    · have hlt : t2 < t1 := by omega
      exact workerWrites_disjoint width height N t2 t1 idx hlt h1N hw2 hw1

/-- Witness for C6 on a 4×3 canvas with two workers at pixel index 5. -/
theorem scanline_partition_exact_witness :
    ((5 < 4 * 3 ↔ ∃ t, t < 2 ∧ workerWrites 4 3 2 t 5) ∧
      (0 < 2 → 1 < 2 → workerWrites 4 3 2 0 5 → workerWrites 4 3 2 1 5 →
        0 = 1)) :=
  scanline_partition_exact 4 3 2 5 0 1 (by decide) (by decide)

/-! ### Concrete evaluation of the test intersection -/

/-- Evaluation of the head-on test intersection for an arbitrary material:
the near root `2` is accepted and the returned record is `recHit0 m`. -/
theorem rayHitCore_eval (m : Material) :
    (Sphere.mk ⟨0, 0, -3⟩ 1 m).rayHitCore rayHit0 clip0 = some (recHit0 m) := by
  have hd : (Sphere.mk ⟨0, 0, -3⟩ 1 m).disc rayHit0 = 1 := by
    norm_num [Sphere.disc, rayHit0, vzero, dot, Vec3.sub_def,
      Vec3.lengthSquared]
  have hnear : (Sphere.mk ⟨0, 0, -3⟩ 1 m).rootNear rayHit0 = 2 := by
    unfold Sphere.rootNear
    rw [hd]
    norm_num [rayHit0, vzero, dot, Vec3.sub_def, Vec3.lengthSquared,
      Real.sqrt_one]
  have hat : rayHit0.at 2 = ⟨0, 0, -2⟩ := by
    norm_num [Ray.at, rayHit0, vzero, Vec3.add_def, Vec3.smul_def]
  have hout : (rayHit0.at 2 - (⟨0, 0, -3⟩ : Vec3)) / (1 : ℝ) =
      (⟨0, 0, 1⟩ : Vec3) := by
    rw [hat]
    norm_num [Vec3.sub_def, Vec3.div_def, Vec3.smul_def]
  unfold Sphere.rayHitCore
  rw [if_neg (by rw [hd]; norm_num), hnear,
    if_pos (by constructor <;> norm_num [clip0])]
  unfold Sphere.acceptHit
  rw [if_neg ?hdneg]
  case hdneg =>
    show ¬ 0 < dot rayHit0.direction ((rayHit0.at 2 - (⟨0, 0, -3⟩ : Vec3)) / (1 : ℝ))
    rw [hout]
    norm_num [rayHit0, dot]
  rw [hat]
  norm_num [recHit0, Vec3.sub_def, Vec3.div_def, Vec3.smul_def, Vec3.mk.injEq]

/-- Witness for C5: on the head-on test configuration the intersection is
accepted with a non-positive direction/outward-normal dot product, so the
record is marked front-face with the outward normal itself. -/
theorem sphere_hit_orientation_witness :
    sphereL.rayHitCore rayHit0 clip0 = some (recHit0 (.lambertian vzero)) ∧
    ((recHit0 (.lambertian vzero)).front_face = true ∧
      (recHit0 (.lambertian vzero)).normal =
        (rayHit0.at (recHit0 (.lambertian vzero)).t - sphereL.center) /
          sphereL.radius) := by
  have hcore : sphereL.rayHitCore rayHit0 clip0 =
      some (recHit0 (.lambertian vzero)) := rayHitCore_eval (.lambertian vzero)
  have hdot : ¬ 0 < dot rayHit0.direction
      ((rayHit0.at (recHit0 (.lambertian vzero)).t - sphereL.center) /
        sphereL.radius) := by
    norm_num [recHit0, rayHit0, sphereL, vzero, Ray.at, dot, Vec3.add_def,
      Vec3.smul_def, Vec3.sub_def, Vec3.div_def]
  exact ⟨hcore,
    (sphere_hit_orientation sphereL rayHit0 clip0 _ hcore).2 hdot⟩

/-! ### Material tracking through the nearest-hit loop -/

/-- Accepted hit records carry the sphere's material. -/
theorem acceptHit_mat (s : Sphere) (r : Ray) (root : ℝ) :
    (s.acceptHit r root).mat = s.mat := by
  unfold Sphere.acceptHit
  split <;> rfl

/-- A successful `Sphere::RayHit` returns a record carrying the sphere's
material. -/
theorem rayHitCore_mat (s : Sphere) (r : Ray) (i : Interval)
    (rec : HitRecord) (h : s.rayHitCore r i = some rec) : rec.mat = s.mat := by
  unfold Sphere.rayHitCore at h
  split at h
  · exact absurd h (by simp)
  · split at h
    · cases h
      exact acceptHit_mat s r _
    · split at h
      · cases h
        exact acceptHit_mat s r _
      · exact absurd h (by simp)

/-- Any property holding of every possible accepted record of every listed
sphere, and of the accumulator, holds of the nearest-hit fold's result. -/
theorem foldl_nearestHit_prop (r : Ray) (clip : Interval)
    (C : HitRecord → Prop) (objs : List Sphere) (acc : Option HitRecord)
    (hacc : ∀ rec, acc = some rec → C rec)
    (hobjs : ∀ s ∈ objs, ∀ (i : Interval) (rec : HitRecord),
      s.rayHitCore r i = some rec → C rec) :
    ∀ rec, objs.foldl (nearestHitStep r clip) acc = some rec → C rec := by
  induction objs generalizing acc with
  | nil =>
      intro rec h
      rw [List.foldl_nil] at h
      exact hacc rec h
  | cons o os ih =>
      intro rec h
      rw [List.foldl_cons] at h
      refine ih (nearestHitStep r clip acc o) ?_
        (fun s hs => hobjs s (List.mem_cons_of_mem o hs)) rec h
      intro rec2 hstep
      cases acc with
      | none =>
          unfold nearestHitStep at hstep
          simp only [] at hstep
          split at hstep
          · cases hstep
            rename_i heq
            exact hobjs o (List.mem_cons_self o os) _ _ heq
          · exact absurd hstep (by simp)
      | some recPrev =>
          unfold nearestHitStep at hstep
          simp only [] at hstep
          split at hstep
          · cases hstep
            rename_i heq
            exact hobjs o (List.mem_cons_self o os) _ _ heq
          · exact hacc rec2 hstep

/-- The material of the record returned by the scene-level nearest-hit query
is the material of one of the scene's spheres. -/
theorem sceneNearestHit_mat (objs : List Sphere) (r : Ray) (clip : Interval)
    (rec : HitRecord) (h : sceneNearestHit objs r clip = some rec) :
    ∃ s ∈ objs, rec.mat = s.mat := by
  unfold sceneNearestHit at h
  refine foldl_nearestHit_prop r clip (fun rec2 => ∃ s ∈ objs, rec2.mat = s.mat)
    objs none (by simp) ?_ rec h
  intro s hs i rec2 hcore
  exact ⟨s, hs, rayHitCore_mat s r i rec2 hcore⟩

/-- Evaluation of the nearest-hit query on the singleton test scene. -/
theorem sceneNearestHit_single (m : Material) :
    sceneNearestHit [Sphere.mk ⟨0, 0, -3⟩ 1 m] rayHit0 clip0 =
      some (recHit0 m) := by
  unfold sceneNearestHit
  rw [List.foldl_cons, List.foldl_nil]
  unfold nearestHitStep
  simp only []
  have heta : (⟨clip0.min, clip0.max⟩ : Interval) = clip0 := rfl
  rw [heta, rayHitCore_eval]

/-! ### Claim C1 -/

/-- C1: evaluation of the claim's scenario — a single emissive sphere of
color `(1,1,1)` and intensity `5` filling the view, `samples_per_pixel = 1`,
max bounce depth `1`. Because `Scene::getRayHit` passes its local
`attenuation` into `fall`'s `out_albedo` parameter and its local `albedo`
into the `attenuation` parameter (Scene.h line 307), the emission term it
reads is the raw emissive color: the pixel evaluates to `(1,1,1)`, not the
intensity-scaled `(5,5,5)` that the claim and the spec's scenario state. -/
theorem emissive_scene_pixel_raw_color :
    (samplePixel [sphereE] (fun _ _ => rand0) 1 clip0 1 1 0
      (fun _ => rayHit0)).color = (⟨1, 1, 1⟩ : Vec3) ∧
    (samplePixel [sphereE] (fun _ _ => rand0) 1 clip0 1 1 0
      (fun _ => rayHit0)).color ≠ (⟨5, 5, 5⟩ : Vec3) := by
  have hs : sceneNearestHit [sphereE] rayHit0 clip0 =
      some (recHit0 (.emission ⟨1, 1, 1⟩ 5)) :=
    sceneNearestHit_single (.emission ⟨1, 1, 1⟩ 5)
  have h1 : (samplePixel [sphereE] (fun _ _ => rand0) 1 clip0 1 1 0
      (fun _ => rayHit0)).color = (⟨1, 1, 1⟩ : Vec3) := by
    unfold samplePixel
    have hr1 : List.range 1 = [0] := rfl
    rw [hr1]
    simp only [List.foldl_cons, List.foldl_nil]
    unfold sampleAccum
    rw [getRayHit]
    rw [if_neg (by norm_num)]
    simp only []
    rw [hs]
    simp only [recHit0, Material.fall]
    norm_num [freshPixel, vzero_add, vzero, Vec3.add_def, Vec3.smul_def,
      Vec3.mk.injEq]
  refine ⟨h1, ?_⟩
  rw [h1]
  simp only [ne_eq, Vec3.mk.injEq]
  norm_num

/-! ### Claim C7 -/

/-- C7: if every surface carries a Diffuse (Lambertian) material with albedo
`(0,0,0)` and the scene is closed (every traced ray's nearest-hit query
succeeds), then the integrator returns color exactly `(0,0,0)` for every
such ray and every bounce depth, and every pixel's accumulated color is
exactly zero regardless of the sample count. -/
theorem black_diffuse_scene_zero (objs : List Sphere) (rngs : ℕ → ℤ → Rand)
    (exposure : ℝ) (clip : Interval) (junk : ℝ) (rays : ℕ → Ray) (spp : ℕ)
    (maxBounces : ℤ)
    (hmat : ∀ s ∈ objs, s.mat = Material.lambertian vzero)
    (hhit : ∀ sample : ℕ, (sceneNearestHit objs (rays sample) clip).isSome) :
    (∀ (rng : ℤ → Rand) (r : Ray) (d : ℤ) (p : PixelInfo),
      (sceneNearestHit objs r clip).isSome →
      (getRayHit objs rng exposure clip junk r d p).color = vzero) ∧
    (samplePixel objs rngs exposure clip spp maxBounces junk rays).color =
      vzero := by
  have part1 : ∀ (rng : ℤ → Rand) (r : Ray) (d : ℤ) (p : PixelInfo),
      (sceneNearestHit objs r clip).isSome →
      (getRayHit objs rng exposure clip junk r d p).color = vzero := by
    intro rng r d p hsome
    rw [getRayHit]
    by_cases hd : d ≤ 0
    · rw [if_pos hd]
    · rw [if_neg hd]
      obtain ⟨rec, hrec⟩ := Option.isSome_iff_exists.mp hsome
      rw [hrec]
      simp only []
      obtain ⟨s, hs, hsmat⟩ := sceneNearestHit_mat objs r clip rec hrec
      rw [hsmat, hmat s hs]
      simp only [Material.fall]
      simp [vzero_add, vzero_mul]
  refine ⟨part1, ?_⟩
  have key : ∀ (l : List ℕ) (acc : PixelInfo),
      (l.foldl (sampleAccum objs rngs exposure clip maxBounces junk rays)
        acc).color = acc.color := by
    intro l
    induction l with
    | nil =>
        intro acc
        rw [List.foldl_nil]
    | cons a as ih =>
        intro acc
        rw [List.foldl_cons, ih]
        unfold sampleAccum
        simp only []
        rw [part1 (rngs a) (rays a) maxBounces _ (hhit a), add_vzero]
  unfold samplePixel
  simp only []
  rw [key (List.range spp) ⟨vzero, vzero, vzero, 0⟩]
  exact smul_vzero _

/-- Witness for C7: the singleton scene of the black-diffuse test sphere,
sampled three times with the constant head-on camera ray and bounce budget
five, accumulates pixel color exactly `(0,0,0)`. -/
theorem black_diffuse_scene_zero_witness :
    (samplePixel [sphereL] (fun _ _ => rand0) 1 clip0 3 5 0
      (fun _ => rayHit0)).color = vzero := by
  refine (black_diffuse_scene_zero [sphereL] (fun _ _ => rand0) 1 clip0 0
    (fun _ => rayHit0) 3 5 ?_ ?_).2
  · intro s hs
    rw [List.mem_singleton] at hs
    rw [hs]
    rfl
  · intro sample
    show (sceneNearestHit [Sphere.mk ⟨0, 0, -3⟩ 1 (.lambertian vzero)]
      rayHit0 clip0).isSome = true
    rw [sceneNearestHit_single (.lambertian vzero)]
    rfl

end RayTracer
